import Mathlib

/-!
Verification of the GenVideo-Studio timeline editor and export engine.

The definitions below are a shallow embedding of the TypeScript source:
`src/components/TimelineEditor.tsx` (preview resolver, playback
synchronizer effect, transport tick, drag and drop coordinate conversion,
Strategy B ffmpeg filter-graph export) and `src/services/timelineExport.ts`
(Strategy A canvas frame-capture export).

Times are modelled as rationals; media source URLs and placement ids as
naturals.
-/

namespace GenVideo

/-- Track of a timeline placement (the `track` field of `TimelineClip`). -/
inductive Track where
  | aroll
  | broll
deriving DecidableEq

/-- A placement on the timeline (interface `TimelineClip` in the source):
a video clip reference (`url` stands for `videoClip.url`), a start time,
a duration and a track. -/
structure TimelineClip where
  id : ℕ
  url : ℕ
  startTime : ℚ
  duration : ℚ
  track : Track
deriving DecidableEq

/-- End instant of a placement: `startTime + duration`. -/
def clipEnd (c : TimelineClip) : ℚ := c.startTime + c.duration

/-- Half-open activity test used by the preview resolver and by Strategy A,
from `currentTime >= clip.startTime && currentTime < clip.startTime + clip.duration`. -/
def activeAt (c : TimelineClip) (t : ℚ) : Prop :=
  c.startTime ≤ t ∧ t < clipEnd c

instance (c : TimelineClip) (t : ℚ) : Decidable (activeAt c t) :=
  inferInstanceAs (Decidable (c.startTime ≤ t ∧ t < clipEnd c))

/-- Closed-interval activity test: ffmpeg `enable=between(t,s,e)` is
inclusive at both endpoints, so Strategy B's overlay windows use this. -/
def closedActive (c : TimelineClip) (t : ℚ) : Prop :=
  c.startTime ≤ t ∧ t ≤ clipEnd c

instance (c : TimelineClip) (t : ℚ) : Decidable (closedActive c t) :=
  inferInstanceAs (Decidable (c.startTime ≤ t ∧ t ≤ clipEnd c))

/-- The clips active at time `t` (TimelineEditor.tsx, active-clip effect:
`timelineClips.filter(...)`), in insertion order. -/
def activeClipsAt (clips : List TimelineClip) (t : ℚ) : List TimelineClip :=
  clips.filter (fun c => decide (activeAt c t))

/-- The preview resolver of TimelineEditor.tsx:
`activeClips.find((c) => c.track === "b-roll") || activeClips[0]`. -/
def previewActiveClip (clips : List TimelineClip) (t : ℚ) : Option TimelineClip :=
  match (activeClipsAt clips t).find? (fun c => decide (c.track = Track.broll)) with
  | some c => some c
  | none => (activeClipsAt clips t).head?

/-- State of the single preview media element (`videoRef.current`): source,
decode position, whether it is playing, and how many source reloads have
happened (an `src` assignment in the DOM triggers a reload). -/
structure VideoElement where
  src : ℕ
  currentTime : ℚ
  playing : Bool
  loads : ℕ
deriving DecidableEq

/-- The playback synchronizer effect of TimelineEditor.tsx: resolve the
active clip; if there is one, assign the source only when it differs
(counted by `loads`), seek to `currentTime - startTime`, and call `play()`
only when the transport is playing.  There is no `pause()` call. -/
def syncPreviewElement (clips : List TimelineClip) (t : ℚ) (isPlaying : Bool)
    (el : VideoElement) : VideoElement :=
  match previewActiveClip clips t with
  | none => el
  | some c =>
    let el1 := if el.src = c.url then el else
      { el with src := c.url, loads := el.loads + 1 }
    let el2 := { el1 with currentTime := t - c.startTime }
    if isPlaying then { el2 with playing := true } else el2

/-- The zero-floored maximum end used by the playback tick and by Strategy
B: `Math.max(...clips.map((c) => c.startTime + c.duration), 0)`. -/
def maxEnds0 (clips : List TimelineClip) : ℚ :=
  (clips.map clipEnd).foldr max 0

/-- One playback tick of the transport (TimelineEditor.tsx, the 100 ms
interval while playing): returns the new `currentTime` and the new
`isPlaying` flag. -/
def tickStep (clips : List TimelineClip) (prev : ℚ) : ℚ × Bool :=
  if maxEnds0 clips ≤ prev then (0, false) else (prev + 1 / 10, true)

/-- The view total duration of TimelineEditor.tsx:
`Math.max(...timelineClips.map((c) => c.startTime + c.duration), 45)`. -/
def totalDuration45 (clips : List TimelineClip) : ℚ :=
  (clips.map clipEnd).foldr max 45

/-- `TRACK_LABEL_WIDTH` (80 px). -/
def trackLabelWidth : ℚ := 80

/-- `PIXEL_PER_SECOND = 50 * zoom`. -/
def pixelsPerSecond (zoom : ℚ) : ℚ := 50 * zoom

/-- The shared pointer-to-time rule stated by the specification:
`time = max(0, (pointerX - trackLabelWidth + scrollOffset) / (basePixelsPerSecond * zoom))`. -/
def timeFromPointer (pointerX scroll zoom : ℚ) : ℚ :=
  max 0 ((pointerX - trackLabelWidth + scroll) / (50 * zoom))

/-- JavaScript `Math.round`: floor of `q + 1/2` (round half toward plus
infinity). -/
def jsRound (q : ℚ) : ℤ := ⌊q + 1 / 2⌋

/-- Round to the nearest tenth: `Math.round(q * 10) / 10`. -/
def quantizeTenth (q : ℚ) : ℚ := (jsRound (q * 10) : ℚ) / 10

/-- Raw drop time of `handleDrop`:
`x = e.clientX - rect.left + scrollLeft - TRACK_LABEL_WIDTH` and
`startTime = Math.max(0, x / PIXEL_PER_SECOND)`. -/
def dropRawTime (pointerX scroll zoom : ℚ) : ℚ :=
  max 0 ((pointerX + scroll - trackLabelWidth) / pixelsPerSecond zoom)

/-- JavaScript `draggedClip.duration || 3`: `undefined` and `0` fall back
to 3. -/
def durationOrThree : Option ℚ → ℚ
  | none => 3
  | some d => if d = 0 then 3 else d

/-- The placement created by `handleDrop`: the raw drop time rounded to a
tenth of a second (`Math.round(startTime * 10) / 10`), and the dragged
clip's duration (or 3). -/
def handleDropClip (newId urlv : ℕ) (assetDuration : Option ℚ) (tr : Track)
    (pointerX scroll zoom : ℚ) : TimelineClip :=
  { id := newId
    url := urlv
    startTime := (jsRound (dropRawTime pointerX scroll zoom * 10) : ℚ) / 10
    duration := durationOrThree assetDuration
    track := tr }

/-- Raw time of the placement-drag mousemove handler: pointer position
minus the recorded grab offset
(`x = e.clientX - rect.left + scrollLeft - TRACK_LABEL_WIDTH - dragOffset`). -/
def placementDragRawTime (pointerX scroll zoom dragOffset : ℚ) : ℚ :=
  max 0 ((pointerX + scroll - trackLabelWidth - dragOffset) / pixelsPerSecond zoom)

/-- The placement-drag state update: the dragged placement's start time is
set to the rounded raw time (`Math.round(newStartTime * 10) / 10`), all
other placements are unchanged. -/
def dragMoveUpdate (clips : List TimelineClip) (dragId : ℕ)
    (pointerX scroll zoom dragOffset : ℚ) : List TimelineClip :=
  clips.map (fun c =>
    if c.id = dragId then
      { c with startTime :=
          (jsRound (placementDragRawTime pointerX scroll zoom dragOffset * 10) : ℚ) / 10 }
    else c)

/-- `handleTimelineClick`: seek to the raw pointer time; there is no upper
clamp. -/
def clickSeekTime (pointerX scroll zoom : ℚ) : ℚ :=
  max 0 ((pointerX + scroll - trackLabelWidth) / pixelsPerSecond zoom)

/-- Playhead drag (mousemove while `isDraggingPlayhead`): raw pointer time
clamped above by `Math.max(...ends, 45)`. -/
def playheadDragTime (clips : List TimelineClip) (pointerX scroll zoom : ℚ) : ℚ :=
  min (max 0 ((pointerX + scroll - trackLabelWidth) / pixelsPerSecond zoom))
    (totalDuration45 clips)

/-- Skip-back button: `setCurrentTime(Math.max(0, currentTime - 5))`. -/
def skipBack (cur : ℚ) : ℚ := max 0 (cur - 5)

/-- Skip-forward button: `setCurrentTime(currentTime + 5)`, with no clamp. -/
def skipForward (cur : ℚ) : ℚ := cur + 5

/-- Stable ordering used by Strategy A: ascending start time
(`sort((a, b) => a.startTime - b.startTime)`, a stable sort). -/
def rStart (a b : TimelineClip) : Prop := a.startTime ≤ b.startTime

instance : DecidableRel rStart := fun a b =>
  inferInstanceAs (Decidable (a.startTime ≤ b.startTime))

/-- Stable ordering used by Strategy B's `handleExport`: a-roll before
b-roll, then ascending start time. -/
def rTrackStart (a b : TimelineClip) : Prop :=
  (a.track = b.track ∧ a.startTime ≤ b.startTime) ∨
    (a.track ≠ b.track ∧ a.track = Track.aroll)

instance : DecidableRel rTrackStart := fun a b =>
  inferInstanceAs (Decidable ((a.track = b.track ∧ a.startTime ≤ b.startTime) ∨
    (a.track ≠ b.track ∧ a.track = Track.aroll)))

/-- Strategy A (timelineExport.ts): the timeline sorted by start time. -/
def sortedByStart (clips : List TimelineClip) : List TimelineClip :=
  List.insertionSort rStart clips

/-- Strategy A total duration:
`Math.max(...sortedTimeline.map((c) => c.startTime + c.duration))`; `none`
models the minus-infinity value of an empty spread. -/
def exportDurationA (clips : List TimelineClip) : Option ℚ :=
  ((sortedByStart clips).map clipEnd).max?

/-- Strategy A frame rate (`const FPS = 30`). -/
def exportFpsA : ℕ := 30

/-- One frame of Strategy A's render loop: `none` models the
`throw new Error("No A-roll found")` path; otherwise the first active
b-roll in start-time order is drawn at its in-clip offset, and with no
active b-roll the a-roll video is drawn seeked to the global time `t`
(`aRollVideo.currentTime = currentTime`). -/
def exportFrameAt (clips : List TimelineClip) (t : ℚ) : Option (ℕ × ℚ) :=
  match (sortedByStart clips).find? (fun c => decide (c.track = Track.aroll)) with
  | none => none
  | some a =>
    match ((sortedByStart clips).filter (fun c => decide (c.track = Track.broll))).find?
        (fun c => decide (activeAt c t)) with
    | some b => some (b.url, t - b.startTime)
    | none => some (a.url, t)

/-- Strategy B filter-graph shape: either an a-roll base with a chain of
time-gated b-roll overlays, or a plain concatenation of the b-rolls. -/
inductive FilterGraph where
  | overlayChain : TimelineClip → List TimelineClip → FilterGraph
  | concatChain : List TimelineClip → FilterGraph
deriving DecidableEq

/-- Strategy B timeline sorted a-roll-first then by start time. -/
def sortedTrackStart (clips : List TimelineClip) : List TimelineClip :=
  List.insertionSort rTrackStart clips

/-- The export plan built by `handleExport`: the filter graph, the `-t`
duration argument, and the `-r` frame rate. -/
structure ExportPlanB where
  graph : FilterGraph
  tLimit : ℚ
  fps : ℕ
deriving DecidableEq

/-- Strategy B graph construction (`handleExport` in TimelineEditor.tsx):
rejects an empty timeline (`alert("No clips on timeline to export")`); with
at least one a-roll, overlays every b-roll in start-time order onto the
first a-roll; otherwise concatenates the b-rolls in start-time order.
`-t` is the zero-floored maximum end and the output rate is 30 fps. -/
def handleExportPlan (clips : List TimelineClip) : Option ExportPlanB :=
  if clips = [] then none
  else
    match (sortedTrackStart clips).filter (fun c => decide (c.track = Track.aroll)) with
    | a :: _ =>
      some { graph := FilterGraph.overlayChain a
               ((sortedTrackStart clips).filter (fun c => decide (c.track = Track.broll)))
             tLimit := ((sortedTrackStart clips).map clipEnd).foldr max 0
             fps := 30 }
    | [] =>
      some { graph := FilterGraph.concatChain
               ((sortedTrackStart clips).filter (fun c => decide (c.track = Track.broll)))
             tLimit := ((sortedTrackStart clips).map clipEnd).foldr max 0
             fps := 30 }

/-- Modelled ffmpeg semantics of the constructed graph at output instant
`t`: in an overlay chain the last overlay whose closed window contains `t`
is on top (each later `overlay` draws over the previous result, and
`between(t,s,e)` is inclusive); with none active the base a-roll shows its
frame at `t`.  Per-instant semantics of `concatChain` are not needed by
the claims and are left unmodelled (`none`). -/
def graphSourceAt (g : FilterGraph) (t : ℚ) : Option (ℕ × ℚ) :=
  match g with
  | FilterGraph.overlayChain base overlays =>
    match (overlays.filter (fun c => decide (closedActive c t))).getLast? with
    | some b => some (b.url, t - b.startTime)
    | none => some (base.url, t)
  | FilterGraph.concatChain _ => none

/-- Modelled encoder duration: `-t` caps the natural graph duration; a
concatenation plays each input file fully (inputs are scaled, not trimmed)
and an overlay chain runs for the base input's length. -/
def graphNaturalDuration (g : FilterGraph) (assetDuration : ℕ → ℚ) : ℚ :=
  match g with
  | FilterGraph.overlayChain base _ => assetDuration base.url
  | FilterGraph.concatChain segs => (segs.map (fun c => assetDuration c.url)).sum

/-- Encoded output duration of a Strategy B plan. -/
def encodedDurationB (plan : ExportPlanB) (assetDuration : ℕ → ℚ) : ℚ :=
  min plan.tLimit (graphNaturalDuration plan.graph assetDuration)

/-- A ten-second a-roll placement starting at 0 (the single-placement
timeline of the specification's scenario). -/
def c3clip : TimelineClip := ⟨0, 0, 0, 10, Track.aroll⟩

/-- A ten-second a-roll placement used by the transport-tick analysis. -/
def c6clip : TimelineClip := ⟨0, 0, 0, 10, Track.aroll⟩

/-- Timeline used by the synchronizer analysis: one a-roll placement with
source URL 9. -/
def c5clip : TimelineClip := ⟨0, 9, 0, 10, Track.aroll⟩

/-- A preview element already showing source 9 and currently playing. -/
def c5element : VideoElement := ⟨9, 0, true, 0⟩

/-- The specification's scenario a-roll: start 0, duration 10. -/
def w1a : TimelineClip := ⟨0, 0, 0, 10, Track.aroll⟩

/-- The specification's scenario b-roll: start 3, duration 2. -/
def w1b : TimelineClip := ⟨1, 1, 3, 2, Track.broll⟩

/-- An a-roll covering only [0, 2), leaving a gap before the b-roll. -/
def x1a : TimelineClip := ⟨0, 0, 0, 2, Track.aroll⟩

/-- A b-roll covering [5, 10), active only after the gap. -/
def x1b : TimelineClip := ⟨1, 1, 5, 5, Track.broll⟩

/-- First-inserted b-roll placement covering [0, 10). -/
def x2A : TimelineClip := ⟨1, 1, 0, 10, Track.broll⟩

/-- Second-inserted b-roll placement, same interval, different source. -/
def x2B : TimelineClip := ⟨2, 2, 0, 10, Track.broll⟩

/-- An a-roll used by the tie-break witness timeline. -/
def w2G : TimelineClip := ⟨0, 0, 0, 20, Track.aroll⟩

/-- First-inserted overlapping b-roll of the tie-break witness. -/
def w2A : TimelineClip := ⟨1, 1, 1, 5, Track.broll⟩

/-- Second-inserted overlapping b-roll of the tie-break witness. -/
def w2B : TimelineClip := ⟨2, 2, 2, 5, Track.broll⟩

/-- A timeline consisting of a single b-roll placement (no a-roll). -/
def x4b : TimelineClip := ⟨1, 3, 0, 5, Track.broll⟩

/-- A-roll of the strategy-equivalence witness timeline. -/
def w4a : TimelineClip := ⟨0, 4, 0, 10, Track.aroll⟩

/-- B-roll of the strategy-equivalence witness timeline: covers [3, 5). -/
def w4b : TimelineClip := ⟨1, 5, 3, 2, Track.broll⟩

/-- First b-roll of the no-a-roll concatenation scenario: [0, 5), source 7. -/
def c7b1 : TimelineClip := ⟨1, 7, 0, 5, Track.broll⟩

/-- Second b-roll of the no-a-roll concatenation scenario: [5, 10), same
source. -/
def c7b2 : TimelineClip := ⟨2, 7, 5, 5, Track.broll⟩

/- Helper lemmas (shared by several claims). -/

theorem track_ab : (Track.aroll = Track.broll) = False := by simp

theorem track_ba : (Track.broll = Track.aroll) = False := by simp

theorem le_foldr_max (l : List ℚ) (a : ℚ) : a ≤ l.foldr max a := by
  induction l with
  | nil => exact le_refl a
  | cons x xs ih => exact le_trans ih (le_max_right x (xs.foldr max a))

theorem foldr_max_nonneg_init (l : List ℚ) (a : ℚ) (h : 0 ≤ a) :
    l.foldr max a = max a (l.foldr max 0) := by
  induction l with
  | nil => simp [max_eq_left h]
  | cons x xs ih => simp only [List.foldr_cons, ih, max_left_comm]

theorem find?_of_filter_eq_singleton {α : Type} (p q : α → Bool) (l : List α) (b : α)
    (hpq : ∀ x ∈ l, q x = true → p x = true)
    (hfilter : l.filter p = [b]) (hqb : q b = true) :
    l.find? q = some b := by
  induction l with
  | nil => simp at hfilter
  | cons x xs ih =>
    by_cases hqx : q x = true
    · have hpx := hpq x (List.mem_cons_self x xs) hqx
      rw [List.filter_cons_of_pos hpx] at hfilter
      have hx : x = b := (List.cons_eq_cons.mp hfilter).1
      rw [List.find?_cons_of_pos xs hqx, hx]
    · by_cases hpx : p x = true
      · rw [List.filter_cons_of_pos hpx] at hfilter
        have hx : x = b := (List.cons_eq_cons.mp hfilter).1
        subst hx
        exact absurd hqb hqx
      · rw [List.filter_cons_of_neg hpx] at hfilter
        rw [List.find?_cons_of_neg xs hqx]
        exact ih (fun y hy => hpq y (List.mem_cons_of_mem x hy)) hfilter

theorem foldr_max_swap (xs : List ℚ) (a x : ℚ) :
    xs.foldr max (max a x) = max x (xs.foldr max a) := by
  induction xs with
  | nil => exact max_comm a x
  | cons y ys ih => simp only [List.foldr_cons, ih, max_left_comm]

theorem foldl_max_eq_foldr (xs : List ℚ) (a : ℚ) :
    xs.foldl max a = xs.foldr max a := by
  induction xs generalizing a with
  | nil => rfl
  | cons x xs ih =>
    rw [List.foldl_cons, ih (max a x), foldr_max_swap, List.foldr_cons]

theorem foldr_max_push (ys : List ℚ) (a b : ℚ) (h0 : 0 ≤ b) :
    max b (ys.foldr max a) = max a (max b (ys.foldr max 0)) := by
  induction ys with
  | nil => rw [List.foldr_nil, List.foldr_nil, max_eq_left h0, max_comm]
  | cons y ys ih =>
    simp only [List.foldr_cons]
    rw [max_left_comm b y, ih, max_left_comm y a, max_left_comm y b]

theorem foldr_max_eq_of_mem_nonneg (l : List ℚ) (a x : ℚ) (hx : x ∈ l) (h0 : 0 ≤ x) :
    l.foldr max a = max a (l.foldr max 0) := by
  induction l with
  | nil => simp at hx
  | cons y ys ih =>
    rcases List.mem_cons.mp hx with h | h
    · subst h
      simp only [List.foldr_cons]
      exact foldr_max_push ys a x h0
    · simp only [List.foldr_cons]
      rw [ih h, max_left_comm]

theorem max?_eq_of_mem_nonneg (l : List ℚ) (x : ℚ) (hx : x ∈ l) (h0 : 0 ≤ x) :
    l.max? = some (l.foldr max 0) := by
  cases l with
  | nil => simp at hx
  | cons h tl =>
    show some (tl.foldl max h) = some ((h :: tl).foldr max 0)
    rw [foldl_max_eq_foldr, List.foldr_cons]
    rcases List.mem_cons.mp hx with hh | hh
    · subst hh
      exact congrArg some (foldr_max_nonneg_init tl x h0)
    · exact congrArg some (foldr_max_eq_of_mem_nonneg tl h x hh h0)

theorem foldr_max_perm {l₁ l₂ : List ℚ} (h : l₁.Perm l₂) (a : ℚ) :
    l₁.foldr max a = l₂.foldr max a := by
  induction h with
  | nil => rfl
  | cons x _ ih => simp only [List.foldr_cons, ih]
  | swap x y l => simp only [List.foldr_cons, max_left_comm]
  | trans _ _ ih1 ih2 => exact ih1.trans ih2

/-- Claim C3, counterexample: a timeline with a single a-roll placement of
start 0 and duration 10 is nonempty, its maximum placement end is 10, yet
the derived total duration is 45 (the 45-second floor applies to every
timeline, not only to empty ones), so it is not 10 as the claim states. -/
theorem c3_counterexample :
    totalDuration45 [c3clip] = 45 ∧ [c3clip] ≠ [] ∧
      maxEnds0 [c3clip] = 10 ∧ (45 : ℚ) ≠ 10 := by
  refine ⟨?_, by simp, ?_, by norm_num⟩
  · norm_num [totalDuration45, clipEnd, c3clip]
  · norm_num [maxEnds0, clipEnd, c3clip]

/-- Claim C3, amended: the derived total duration equals
`max 45 (max over placements of startTime + duration)`; it is 45 for the
empty timeline, and it equals the placement maximum exactly when that
maximum is at least the 45-second floor. -/
theorem c3_amended (clips : List TimelineClip) :
    totalDuration45 clips = max 45 (maxEnds0 clips) ∧
      (clips = [] → totalDuration45 clips = 45) ∧
      (45 ≤ maxEnds0 clips → totalDuration45 clips = maxEnds0 clips) := by
  have h1 : totalDuration45 clips = max 45 (maxEnds0 clips) :=
    foldr_max_nonneg_init (clips.map clipEnd) 45 (by norm_num)
  refine ⟨h1, ?_, ?_⟩
  · intro h
    subst h
    rfl
  · intro h
    rw [h1, max_eq_right h]

/-- Claim C3, witness: the amended statement evaluated on the timeline with
one placement ending at 50 (above the floor) and on the empty timeline. -/
theorem c3_amended_witness :
    totalDuration45 [] = 45 ∧
      (45 ≤ maxEnds0 [⟨0, 0, 0, 50, Track.aroll⟩] →
        totalDuration45 [⟨0, 0, 0, 50, Track.aroll⟩] =
          maxEnds0 [⟨0, 0, 0, 50, Track.aroll⟩]) :=
  ⟨(c3_amended []).2.1 rfl, (c3_amended [⟨0, 0, 0, 50, Track.aroll⟩]).2.2⟩

/-- Claim C5, counterexample: with an a-roll placement active at time 1 and
the transport paused, the synchronizer leaves a playing element playing —
there is no pause branch — contradicting the claim's "pausing it
otherwise". -/
theorem c5_counterexample :
    (syncPreviewElement [c5clip] 1 false c5element).playing = true ∧
      (previewActiveClip [c5clip] 1).isSome = true := by
  constructor
  · norm_num [syncPreviewElement, previewActiveClip, activeClipsAt, activeAt,
      clipEnd, c5clip, c5element, List.filter_cons, List.filter_nil, List.find?,
      track_ab, track_ba]
  · norm_num [previewActiveClip, activeClipsAt, activeAt, clipEnd, c5clip,
      List.filter_cons, List.filter_nil, List.find?, track_ab, track_ba]

/-- Claim C5, amended: whenever a placement is resolved as active, the
synchronizer assigns the resolved source (reloading only when the URL
differs), seeks to `currentTime - startTime`, and starts playback when the
transport is playing; when the transport is not playing the element's
playing state is left unchanged (the effect never pauses). -/
theorem c5_amended (clips : List TimelineClip) (t : ℚ) (isPlaying : Bool)
    (el : VideoElement) (c : TimelineClip)
    (hc : previewActiveClip clips t = some c) :
    (syncPreviewElement clips t isPlaying el).src = c.url ∧
      (syncPreviewElement clips t isPlaying el).currentTime = t - c.startTime ∧
      (el.src = c.url → (syncPreviewElement clips t isPlaying el).loads = el.loads) ∧
      (el.src ≠ c.url → (syncPreviewElement clips t isPlaying el).loads = el.loads + 1) ∧
      (isPlaying = true → (syncPreviewElement clips t isPlaying el).playing = true) ∧
      (isPlaying = false → (syncPreviewElement clips t isPlaying el).playing = el.playing) := by
  simp only [syncPreviewElement, hc]
  by_cases h : el.src = c.url <;> cases isPlaying <;> simp [h]

/-- Claim C5, witness: the amended statement on a timeline whose active
clip's source differs from the element's current source, with playback on. -/
theorem c5_amended_witness :
    (syncPreviewElement [c5clip] 1 true ⟨7, 0, false, 2⟩).src = 9 ∧
      (syncPreviewElement [c5clip] 1 true ⟨7, 0, false, 2⟩).currentTime = 1 ∧
      (syncPreviewElement [c5clip] 1 true ⟨7, 0, false, 2⟩).loads = 3 ∧
      (syncPreviewElement [c5clip] 1 true ⟨7, 0, false, 2⟩).playing = true := by
  have hc : previewActiveClip [c5clip] 1 = some c5clip := by
    norm_num [previewActiveClip, activeClipsAt, activeAt, clipEnd, c5clip,
      List.filter_cons, List.filter_nil, List.find?, track_ab, track_ba]
  have h := c5_amended [c5clip] 1 true ⟨7, 0, false, 2⟩ c5clip hc
  refine ⟨h.1, ?_, h.2.2.2.1 (by norm_num [c5clip]), h.2.2.2.2.1 rfl⟩
  have h2 := h.2.1
  rw [h2]
  norm_num [c5clip]

/-- Claim C6, counterexample: with a single placement ending at 10, the
tick at `currentTime = 10` stops and resets even though the derived
`totalDuration` is 45, so the transport stops strictly before
`currentTime` reaches `totalDuration` (the tick threshold is the
zero-floored maximum end, not the 45-floored view duration). -/
theorem c6_counterexample :
    tickStep [c6clip] 10 = (0, false) ∧ (10 : ℚ) < totalDuration45 [c6clip] := by
  constructor
  · norm_num [tickStep, maxEnds0, clipEnd, c6clip]
  · norm_num [totalDuration45, clipEnd, c6clip]

/-- Claim C6, amended: while playing, a tick with `currentTime` strictly
below the zero-floored maximum placement end advances it by 0.1 and keeps
playing; at the first tick at or past that maximum the transport stops and
resets `currentTime` to 0 (and therefore never advances past it). -/
theorem c6_amended (clips : List TimelineClip) (prev : ℚ) :
    (prev < maxEnds0 clips → tickStep clips prev = (prev + 1 / 10, true)) ∧
      (maxEnds0 clips ≤ prev → tickStep clips prev = (0, false)) := by
  constructor
  · intro h
    unfold tickStep
    rw [if_neg (not_le.mpr h)]
  · intro h
    unfold tickStep
    rw [if_pos h]

/-- Claim C6, witness: the amended statement on the ten-second timeline, at
a mid-playback tick and at the stopping tick. -/
theorem c6_amended_witness :
    tickStep [c6clip] 1 = (1 + 1 / 10, true) ∧ tickStep [c6clip] 10 = (0, false) :=
  ⟨(c6_amended [c6clip] 1).1 (by norm_num [maxEnds0, clipEnd, c6clip]),
    (c6_amended [c6clip] 10).2 (by norm_num [maxEnds0, clipEnd, c6clip])⟩

/-- Claim C8, counterexample: on an empty timeline (`totalDuration` 45),
pressing skip-forward at `currentTime = 45` yields 50, which exceeds
`totalDuration` — the skip-forward handler applies no upper clamp, so the
claimed invariant `currentTime ≤ totalDuration` is not preserved. -/
theorem c8_counterexample :
    skipForward 45 = 50 ∧ totalDuration45 [] = 45 ∧
      ¬ skipForward 45 ≤ totalDuration45 [] := by
  refine ⟨by norm_num [skipForward], rfl, ?_⟩
  norm_num [skipForward, totalDuration45]

/-- Claim C8, amended: every listed operation preserves `0 ≤ currentTime`
(skip-forward preserves it only given a non-negative current value); the
playhead drag additionally clamps above by the 45-floored maximum end, and
a tick either resets to 0 or stays at most one increment past the
zero-floored maximum end; but skip-forward and click-to-seek apply no
upper clamp, so `currentTime ≤ totalDuration` is not an invariant. -/
theorem c8_amended (clips : List TimelineClip) (cur prev pointerX scroll zoom : ℚ) :
    0 ≤ skipBack cur ∧
      (0 ≤ cur → 0 ≤ skipForward cur) ∧
      0 ≤ clickSeekTime pointerX scroll zoom ∧
      0 ≤ playheadDragTime clips pointerX scroll zoom ∧
      playheadDragTime clips pointerX scroll zoom ≤ totalDuration45 clips ∧
      (0 ≤ prev → 0 ≤ (tickStep clips prev).1) ∧
      ((tickStep clips prev).1 = 0 ∨ (tickStep clips prev).1 ≤ maxEnds0 clips + 1 / 10) := by
  have h45 : (0 : ℚ) ≤ totalDuration45 clips :=
    le_trans (by norm_num) (le_foldr_max (clips.map clipEnd) 45)
  refine ⟨le_max_left 0 (cur - 5), ?_, le_max_left 0 _, ?_, min_le_right _ _, ?_, ?_⟩
  · intro h
    unfold skipForward
    linarith
  · exact le_min (le_max_left 0 _) h45
  · intro h
    unfold tickStep
    split
    · exact le_refl 0
    · exact add_nonneg h (by norm_num)
  · unfold tickStep
    split
    · exact Or.inl rfl
    · rename_i h
      exact Or.inr (by linarith [not_le.mp h])

/-- Claim C8, witness: the amended statement evaluated at concrete inputs
(empty timeline, current time 3, tick from 0). -/
theorem c8_amended_witness :
    0 ≤ skipBack 3 ∧ 0 ≤ skipForward 3 ∧ 0 ≤ (tickStep [] 0).1 ∧
      playheadDragTime [] 100 0 1 ≤ totalDuration45 [] :=
  ⟨(c8_amended [] 3 0 100 0 1).1,
    (c8_amended [] 3 0 100 0 1).2.1 (by norm_num),
    (c8_amended [] 3 0 100 0 1).2.2.2.2.2.1 (by norm_num),
    (c8_amended [] 3 0 100 0 1).2.2.2.2.1⟩

/-- Claim C9: the three pointer-to-time conversions (click-to-seek, library
drop, placement drag) are instances of the single shared rule
`max(0, (pointerX - trackLabelWidth + scrollOffset) / (50 * zoom))` (the
placement drag applies it to the pointer position shifted by the recorded
grab offset), and for positive zoom the derived time is monotone
non-decreasing in the pointer position and always non-negative. -/
theorem c9_shared_rule (pointerX scroll zoom dragOffset x1 x2 : ℚ)
    (hz : 0 < zoom) (hx : x1 ≤ x2) :
    clickSeekTime pointerX scroll zoom = timeFromPointer pointerX scroll zoom ∧
      dropRawTime pointerX scroll zoom = timeFromPointer pointerX scroll zoom ∧
      placementDragRawTime pointerX scroll zoom dragOffset =
        timeFromPointer (pointerX - dragOffset) scroll zoom ∧
      timeFromPointer x1 scroll zoom ≤ timeFromPointer x2 scroll zoom ∧
      0 ≤ timeFromPointer x1 scroll zoom := by
  have hz50 : (0 : ℚ) < 50 * zoom := by linarith
  refine ⟨?_, ?_, ?_, ?_, le_max_left 0 _⟩
  · unfold clickSeekTime timeFromPointer pixelsPerSecond trackLabelWidth
    ring_nf
  · unfold dropRawTime timeFromPointer pixelsPerSecond trackLabelWidth
    ring_nf
  · unfold placementDragRawTime timeFromPointer pixelsPerSecond trackLabelWidth
    ring_nf
  · exact max_le_max (le_refl 0) (div_le_div_of_nonneg_right (by linarith) hz50.le)

/-- Claim C9, witness: the shared rule and monotonicity at concrete inputs. -/
theorem c9_witness :
    clickSeekTime 100 0 1 = timeFromPointer 100 0 1 ∧
      timeFromPointer 100 0 1 ≤ timeFromPointer 200 0 1 ∧
      0 ≤ timeFromPointer 100 0 1 := by
  have h := c9_shared_rule 100 0 1 0 100 200 (by norm_num) (by norm_num)
  exact ⟨h.1, h.2.2.2.1, h.2.2.2.2⟩

/-- Claim C10: the start times stored by a library drop and by a placement
drag are the pointer-derived raw times rounded to the nearest tenth
(`Math.round(raw * 10) / 10`), hence every such start time lies on the
0.1-second grid; placements other than the dragged one are unchanged. -/
theorem c10_quantized_grid (newId urlv : ℕ) (ad : Option ℚ) (tr : Track)
    (clips : List TimelineClip) (dragId : ℕ) (p s z off : ℚ) :
    (handleDropClip newId urlv ad tr p s z).startTime =
        quantizeTenth (dropRawTime p s z) ∧
      (∃ k : ℤ, 0 ≤ k ∧
        (handleDropClip newId urlv ad tr p s z).startTime = (k : ℚ) / 10) ∧
      (∀ c ∈ clips, ¬ c.id = dragId → c ∈ dragMoveUpdate clips dragId p s z off) ∧
      (∀ c ∈ dragMoveUpdate clips dragId p s z off, c.id = dragId →
        c.startTime = quantizeTenth (placementDragRawTime p s z off) ∧
        ∃ k : ℤ, 0 ≤ k ∧ c.startTime = (k : ℚ) / 10) := by
  have hdropnn : (0 : ℚ) ≤ dropRawTime p s z * 10 :=
    mul_nonneg (le_max_left 0 _) (by norm_num)
  have hdragnn : (0 : ℚ) ≤ placementDragRawTime p s z off * 10 :=
    mul_nonneg (le_max_left 0 _) (by norm_num)
  refine ⟨rfl, ?_, ?_, ?_⟩
  · refine ⟨jsRound (dropRawTime p s z * 10), ?_, rfl⟩
    exact Int.floor_nonneg.mpr (by linarith)
  · intro c hc hid
    exact List.mem_map.mpr ⟨c, hc, by simp [hid]⟩
  · intro c hc hid
    obtain ⟨orig, horig, heq⟩ := List.mem_map.mp hc
    by_cases h : orig.id = dragId
    · subst heq
      simp only [h, if_pos] at hid ⊢
      refine ⟨rfl, jsRound (placementDragRawTime p s z off * 10), ?_, rfl⟩
      exact Int.floor_nonneg.mpr (by linarith)
    · rw [if_neg h] at heq
      subst heq
      exact absurd hid h

/-- Claim C10, witness: the drop start time at a concrete pointer position
equals the quantized shared-rule time. -/
theorem c10_witness :
    (handleDropClip 0 0 none Track.broll 100 0 1).startTime =
      quantizeTenth (dropRawTime 100 0 1) :=
  (c10_quantized_grid 0 0 none Track.broll [] 0 100 0 1 0).1

/-- Claim C1, counterexample: on the timeline with an a-roll covering
[0, 2) and a b-roll covering [5, 10), no placement is active at time 3,
yet Strategy A's frame loop draws the a-roll source (seeked to the global
time 3) — the export chooses the a-roll whenever no b-roll is active,
even when the a-roll's interval does not contain the time, so "nothing is
chosen" fails for the export loop. -/
theorem c1_counterexample :
    activeClipsAt [x1a, x1b] 3 = [] ∧ exportFrameAt [x1a, x1b] 3 = some (0, 3) := by
  constructor
  · norm_num [activeClipsAt, activeAt, clipEnd, x1a, x1b,
      List.filter_cons, List.filter_nil]
  · norm_num [exportFrameAt, sortedByStart, List.insertionSort, List.orderedInsert,
      rStart, activeAt, clipEnd, x1a, x1b, List.filter_cons, List.filter_nil,
      List.find?, track_ab, track_ba]

/-- Claim C1, amended: in the preview resolver, an active b-roll always
wins over any concurrently active a-roll, an active a-roll is chosen when
no b-roll is active, and nothing is chosen when no placement is active;
in Strategy A's frame loop (which requires an a-roll to exist at all) an
active b-roll likewise always wins, but when no b-roll is active the
a-roll is drawn unconditionally at the global time — including at instants
where no a-roll placement is active. -/
theorem c1_amended (clips : List TimelineClip) (t : ℚ) :
    ((∃ b ∈ clips, b.track = Track.broll ∧ activeAt b t) →
      ∃ b, previewActiveClip clips t = some b ∧ b ∈ clips ∧
        b.track = Track.broll ∧ activeAt b t) ∧
    ((∀ c ∈ clips, c.track = Track.broll → ¬ activeAt c t) →
      (∃ a ∈ clips, a.track = Track.aroll ∧ activeAt a t) →
      ∃ a, previewActiveClip clips t = some a ∧ a ∈ clips ∧
        a.track = Track.aroll ∧ activeAt a t) ∧
    ((∀ c ∈ clips, ¬ activeAt c t) → previewActiveClip clips t = none) ∧
    ((∃ ar ∈ clips, ar.track = Track.aroll) →
      (∃ b ∈ clips, b.track = Track.broll ∧ activeAt b t) →
      ∃ b, b ∈ clips ∧ b.track = Track.broll ∧ activeAt b t ∧
        exportFrameAt clips t = some (b.url, t - b.startTime)) ∧
    ((∃ ar ∈ clips, ar.track = Track.aroll) →
      (∀ c ∈ clips, c.track = Track.broll → ¬ activeAt c t) →
      ∃ a, a ∈ clips ∧ a.track = Track.aroll ∧
        exportFrameAt clips t = some (a.url, t)) := by
  refine ⟨?_, ?_, ?_, ?_, ?_⟩
  · rintro ⟨b, hbmem, hbt, hbact⟩
    have hbf : b ∈ activeClipsAt clips t :=
      List.mem_filter.mpr ⟨hbmem, decide_eq_true hbact⟩
    have hsome : ((activeClipsAt clips t).find?
        (fun c => decide (c.track = Track.broll))).isSome = true :=
      List.find?_isSome.mpr ⟨b, hbf, decide_eq_true hbt⟩
    obtain ⟨c, hc⟩ := Option.isSome_iff_exists.mp hsome
    have hcf := List.mem_filter.mp (List.mem_of_find?_eq_some hc)
    have hct : c.track = Track.broll := by simpa using List.find?_some hc
    refine ⟨c, ?_, hcf.1, hct, of_decide_eq_true hcf.2⟩
    simp only [previewActiveClip, hc]
  · intro hnob
    rintro ⟨a, hamem, _, haact⟩
    have hfind : (activeClipsAt clips t).find?
        (fun c => decide (c.track = Track.broll)) = none := by
      rw [List.find?_eq_none]
      intro x hx
      have hxf := List.mem_filter.mp hx
      simp only [decide_eq_true_eq]
      intro hxt
      exact hnob x hxf.1 hxt (of_decide_eq_true hxf.2)
    have haf : a ∈ activeClipsAt clips t :=
      List.mem_filter.mpr ⟨hamem, decide_eq_true haact⟩
    cases hl : activeClipsAt clips t with
    | nil =>
      rw [hl] at haf
      simp at haf
    | cons h tl =>
      have hpre : previewActiveClip clips t = some h := by
        simp only [previewActiveClip, hfind]
        rw [hl]
        rfl
      have hhmem : h ∈ activeClipsAt clips t := by
        rw [hl]
        exact List.mem_cons_self h tl
      have hhf := List.mem_filter.mp hhmem
      have hht : h.track = Track.aroll := by
        cases htr : h.track
        · rfl
        · exfalso
          have hne := List.find?_eq_none.mp hfind h hhmem
          simp [htr] at hne
      exact ⟨h, hpre, hhf.1, hht, of_decide_eq_true hhf.2⟩
  · intro hall
    have hnil : activeClipsAt clips t = [] :=
      List.filter_eq_nil_iff.mpr (fun c hc => by simpa using hall c hc)
    simp [previewActiveClip, hnil]
  · rintro ⟨ar, harm, hart⟩ ⟨b, hbmem, hbt, hbact⟩
    have hpermA : (sortedByStart clips).Perm clips := List.perm_insertionSort _ _
    have hsomeA : ((sortedByStart clips).find?
        (fun c => decide (c.track = Track.aroll))).isSome = true :=
      List.find?_isSome.mpr ⟨ar, hpermA.mem_iff.mpr harm, decide_eq_true hart⟩
    obtain ⟨a, hfa⟩ := Option.isSome_iff_exists.mp hsomeA
    have hbf : b ∈ (sortedByStart clips).filter
        (fun c => decide (c.track = Track.broll)) :=
      List.mem_filter.mpr ⟨hpermA.mem_iff.mpr hbmem, decide_eq_true hbt⟩
    have hsomeB : (((sortedByStart clips).filter
        (fun c => decide (c.track = Track.broll))).find?
        (fun c => decide (activeAt c t))).isSome = true :=
      List.find?_isSome.mpr ⟨b, hbf, decide_eq_true hbact⟩
    obtain ⟨b2, hfb⟩ := Option.isSome_iff_exists.mp hsomeB
    have hb2f := List.mem_filter.mp (List.mem_of_find?_eq_some hfb)
    have hb2act : activeAt b2 t := by simpa using List.find?_some hfb
    refine ⟨b2, hpermA.mem_iff.mp hb2f.1, of_decide_eq_true hb2f.2,
      hb2act, ?_⟩
    simp only [exportFrameAt, hfa, hfb]
  · rintro ⟨ar, harm, hart⟩
    intro hnob
    have hpermA : (sortedByStart clips).Perm clips := List.perm_insertionSort _ _
    have hsomeA : ((sortedByStart clips).find?
        (fun c => decide (c.track = Track.aroll))).isSome = true :=
      List.find?_isSome.mpr ⟨ar, hpermA.mem_iff.mpr harm, decide_eq_true hart⟩
    obtain ⟨a, hfa⟩ := Option.isSome_iff_exists.mp hsomeA
    have hfbn : ((sortedByStart clips).filter
        (fun c => decide (c.track = Track.broll))).find?
        (fun c => decide (activeAt c t)) = none := by
      rw [List.find?_eq_none]
      intro x hx
      have hxf := List.mem_filter.mp hx
      simp only [decide_eq_true_eq]
      exact hnob x (hpermA.mem_iff.mp hxf.1) (of_decide_eq_true hxf.2)
    have hat : a.track = Track.aroll := by simpa using List.find?_some hfa
    refine ⟨a, hpermA.mem_iff.mp (List.mem_of_find?_eq_some hfa),
      hat, ?_⟩
    simp only [exportFrameAt, hfa, hfbn]

/-- Claim C1, witness: the specification's scenario (a-roll [0, 10),
b-roll [3, 5)) at time 4: the preview resolver chooses an active b-roll. -/
theorem c1_amended_witness :
    ∃ b, previewActiveClip [w1a, w1b] 4 = some b ∧ b ∈ [w1a, w1b] ∧
      b.track = Track.broll ∧ activeAt b 4 :=
  (c1_amended [w1a, w1b] 4).1
    ⟨w1b, by simp, rfl, by norm_num [activeAt, clipEnd, w1b]⟩

/-- Claim C2, counterexample: two b-roll placements with identical
intervals [0, 10), inserted A then B; at time 5 the preview resolver
returns A, the first-inserted placement (JavaScript `Array.find` returns
the first match), not the last-inserted B the claim requires. -/
theorem c2_counterexample :
    previewActiveClip [x2A, x2B] 5 = some x2A ∧ x2A ≠ x2B := by
  constructor
  · norm_num [previewActiveClip, activeClipsAt, activeAt, clipEnd, x2A, x2B,
      List.filter_cons, List.filter_nil, List.find?]
  · norm_num [x2A, x2B]

/-- Claim C2, amended: for two same-track placements A (inserted first)
and B (inserted second) both containing `t` — with an a-roll G also on the
timeline, and A not starting after B — the active-placement resolution at
`t` returns A, the first-inserted placement: the tie-break is
first-inserted wins (insertion order in the preview, stable start-time
order in the export), not last-inserted wins. -/
theorem c2_amended (G A B : TimelineClip) (t : ℚ)
    (hG : G.track = Track.aroll) (hA : A.track = Track.broll)
    (hB : B.track = Track.broll) (hAact : activeAt A t) (hBact : activeAt B t)
    (hstart : A.startTime ≤ B.startTime) :
    previewActiveClip [G, A, B] t = some A ∧
      exportFrameAt [G, A, B] t = some (A.url, t - A.startTime) := by
  constructor
  · by_cases hGact : activeAt G t <;>
      simp [previewActiveClip, activeClipsAt, List.filter_cons, List.filter_nil,
        List.find?, hAact, hBact, hGact, hG, hA, hB]
  · by_cases hGA : G.startTime ≤ A.startTime <;>
      by_cases hGB : G.startTime ≤ B.startTime <;>
      simp [exportFrameAt, sortedByStart, List.insertionSort, List.orderedInsert,
        rStart, hstart, hGA, hGB, hG, hA, hB, hAact,
        List.filter_cons, List.filter_nil, List.find?]

/-- Claim C2, witness: a-roll plus two overlapping b-rolls (inserted A
then B) at time 3: resolution picks A in the preview and in the export. -/
theorem c2_amended_witness :
    previewActiveClip [w2G, w2A, w2B] 3 = some w2A ∧
      exportFrameAt [w2G, w2A, w2B] 3 = some (1, 2) := by
  have h := c2_amended w2G w2A w2B 3 rfl rfl rfl
    (by norm_num [activeAt, clipEnd, w2A])
    (by norm_num [activeAt, clipEnd, w2B])
    (by norm_num [w2A, w2B])
  refine ⟨h.1, ?_⟩
  rw [h.2]
  norm_num [w2A]

instance : IsTotal TimelineClip rTrackStart := by
  constructor
  intro a b
  by_cases h : a.track = b.track
  · rcases le_total a.startTime b.startTime with hle | hle
    · exact Or.inl (Or.inl ⟨h, hle⟩)
    · exact Or.inr (Or.inl ⟨h.symm, hle⟩)
  · cases ha : a.track
    · exact Or.inl (Or.inr ⟨h, ha⟩)
    · cases hb : b.track
      · exact Or.inr (Or.inr ⟨fun he => h he.symm, hb⟩)
      · exact absurd (ha.trans hb.symm) h

instance : IsTrans TimelineClip rTrackStart := by
  constructor
  intro a b c hab hbc
  rcases hab with ⟨hab1, hab2⟩ | ⟨hab1, hab2⟩ <;>
    rcases hbc with ⟨hbc1, hbc2⟩ | ⟨hbc1, hbc2⟩
  · exact Or.inl ⟨hab1.trans hbc1, hab2.trans hbc2⟩
  · refine Or.inr ⟨?_, ?_⟩
    · rw [hab1]
      exact hbc1
    · rw [hab1]
      exact hbc2
  · refine Or.inr ⟨?_, hab2⟩
    rw [← hbc1]
    exact hab1
  · exact absurd (hab2.trans hbc2.symm) hab1

/-- Claim C7: when a nonempty timeline contains no a-roll placement,
Strategy B's graph construction produces a straight concatenation whose
segments are exactly the timeline's placements in start-time order, with
`-t` equal to the maximum placement end and 30 fps output. -/
theorem c7_concat_no_aroll (clips : List TimelineClip)
    (hne : clips ≠ []) (hall : ∀ c ∈ clips, c.track = Track.broll) :
    ∃ segs, handleExportPlan clips =
        some ⟨FilterGraph.concatChain segs, maxEnds0 clips, 30⟩ ∧
      segs.Perm clips ∧ segs.Pairwise rStart := by
  have hperm : (sortedTrackStart clips).Perm clips :=
    List.perm_insertionSort _ _
  have hfA : (sortedTrackStart clips).filter
      (fun c => decide (c.track = Track.aroll)) = [] := by
    rw [List.filter_eq_nil_iff]
    intro x hx
    have hxb := hall x (hperm.mem_iff.mp hx)
    simp [hxb]
  have hfB : (sortedTrackStart clips).filter
      (fun c => decide (c.track = Track.broll)) = sortedTrackStart clips := by
    rw [List.filter_eq_self]
    intro x hx
    exact decide_eq_true (hall x (hperm.mem_iff.mp hx))
  have htl : ((sortedTrackStart clips).map clipEnd).foldr max 0 = maxEnds0 clips :=
    foldr_max_perm (hperm.map clipEnd) 0
  refine ⟨(sortedTrackStart clips).filter (fun c => decide (c.track = Track.broll)),
    ?_, ?_, ?_⟩
  · unfold handleExportPlan
    rw [if_neg hne, hfA, htl]
  · refine (hperm.filter _).trans ?_
    have hfc : clips.filter (fun c => decide (c.track = Track.broll)) = clips :=
      List.filter_eq_self.mpr (fun x hx => decide_eq_true (hall x hx))
    rw [hfc]
  · have hsorted : List.Sorted rTrackStart (sortedTrackStart clips) :=
      List.sorted_insertionSort rTrackStart clips
    have hpair : ((sortedTrackStart clips).filter
        (fun c => decide (c.track = Track.broll))).Pairwise rTrackStart :=
      List.Pairwise.filter _ hsorted
    refine hpair.imp_of_mem ?_
    intro a b hamem hbmem hr
    have haB : a.track = Track.broll :=
      hall a (hperm.mem_iff.mp (List.mem_of_mem_filter hamem))
    have hbB : b.track = Track.broll :=
      hall b (hperm.mem_iff.mp (List.mem_of_mem_filter hbmem))
    rcases hr with ⟨_, hle⟩ | ⟨_, hA⟩
    · exact hle
    · rw [haB] at hA
      exact absurd hA (by simp)

/-- Claim C7, witness: the scenario timeline of two 5-second b-roll
placements of the same 5-second asset at starts 0 and 5 with no a-roll:
the constructed plan is the straight concatenation in start-time order
with a 10-second duration cap, and the modelled encoded output duration
is 10 seconds. -/
theorem c7_witness :
    handleExportPlan [c7b1, c7b2] =
        some ⟨FilterGraph.concatChain [c7b1, c7b2], 10, 30⟩ ∧
      encodedDurationB ⟨FilterGraph.concatChain [c7b1, c7b2], 10, 30⟩
        (fun _ => 5) = 10 := by
  obtain ⟨segs, hplan, hperm, hsort⟩ := c7_concat_no_aroll [c7b1, c7b2]
    (by simp)
    (by
      intro c hc
      rcases List.mem_cons.mp hc with h | h
      · subst h
        rfl
      · rcases List.mem_cons.mp h with h2 | h2
        · subst h2
          rfl
        · simp at h2)
  constructor
  · norm_num [handleExportPlan, sortedTrackStart, List.insertionSort,
      List.orderedInsert, rTrackStart, c7b1, c7b2, clipEnd,
      List.filter_cons, List.filter_nil, track_ab, track_ba, List.cons_ne_nil]
  · norm_num [encodedDurationB, graphNaturalDuration, c7b1, c7b2]

/-- Claim C4, counterexample: on a timeline with a single b-roll placement
and no a-roll, Strategy A's export fails (`throw new Error("No A-roll
found")`, modelled by `none`) while Strategy B's graph construction
succeeds (falling back to concatenation) — the two strategies do not
succeed or fail on the same timelines. -/
theorem c4_counterexample :
    exportFrameAt [x4b] 0 = none ∧ (handleExportPlan [x4b]).isSome = true := by
  constructor
  · norm_num [exportFrameAt, sortedByStart, List.insertionSort,
      List.orderedInsert, rStart, x4b, List.filter_cons, List.filter_nil,
      List.find?, track_ab, track_ba]
  · norm_num [handleExportPlan, sortedTrackStart, List.insertionSort,
      List.orderedInsert, rTrackStart, x4b, clipEnd, List.filter_cons,
      List.filter_nil, track_ab, track_ba, List.cons_ne_nil]

/-- Claim C4, amended: the strategies are not equivalent on all timelines
(Strategy A fails without an a-roll, Strategy B concatenates). For a
timeline with exactly one a-roll placement, both strategies build their
composite (Strategy B as an overlay plan), agree on the frame rate (30)
and on the encode duration (the maximum placement end), and select the
same source and in-clip offset at every instant at which exactly one
b-roll's closed window contains the instant and that b-roll is also
active in the half-open sense — with the a-roll shown by both when no
b-roll window contains the instant.  (At instants where several b-roll
windows overlap, or exactly at a b-roll's end instant, the two strategies
can diverge: A shows the first active b-roll in start order, B's overlay
chain shows the last, and ffmpeg's `between` is end-inclusive.) -/
theorem c4_amended (clips : List TimelineClip) (a : TimelineClip) (t : ℚ)
    (ha : clips.filter (fun c => decide (c.track = Track.aroll)) = [a])
    (h0 : 0 ≤ clipEnd a) :
    ∃ plan : ExportPlanB,
      handleExportPlan clips = some plan ∧
      plan.fps = 30 ∧ plan.fps = exportFpsA ∧
      exportDurationA clips = some plan.tLimit ∧
      (∀ b : TimelineClip,
        clips.filter (fun c => decide (c.track = Track.broll ∧ closedActive c t)) = [b] →
        activeAt b t →
        exportFrameAt clips t = some (b.url, t - b.startTime) ∧
        graphSourceAt plan.graph t = some (b.url, t - b.startTime)) ∧
      ((∀ c ∈ clips, c.track = Track.broll → ¬ closedActive c t) →
        exportFrameAt clips t = some (a.url, t) ∧
        graphSourceAt plan.graph t = some (a.url, t)) := by
  have haf : a ∈ clips.filter (fun c => decide (c.track = Track.aroll)) :=
    ha.symm ▸ List.mem_singleton_self a
  have hamem : a ∈ clips := List.mem_of_mem_filter haf
  have hat : a.track = Track.aroll := of_decide_eq_true (List.mem_filter.mp haf).2
  have hane : clips ≠ [] := List.ne_nil_of_mem hamem
  have hpermB : (sortedTrackStart clips).Perm clips := List.perm_insertionSort _ _
  have hpermA : (sortedByStart clips).Perm clips := List.perm_insertionSort _ _
  have hfBA : (sortedTrackStart clips).filter
      (fun c => decide (c.track = Track.aroll)) = [a] := by
    rw [← List.perm_singleton, ← ha]
    exact hpermB.filter _
  have hfAA : (sortedByStart clips).filter
      (fun c => decide (c.track = Track.aroll)) = [a] := by
    rw [← List.perm_singleton, ← ha]
    exact hpermA.filter _
  have hfindA : (sortedByStart clips).find?
      (fun c => decide (c.track = Track.aroll)) = some a :=
    find?_of_filter_eq_singleton _ _ _ a (fun x _ hx => hx) hfAA (decide_eq_true hat)
  have htlA : exportDurationA clips =
      some (((sortedTrackStart clips).map clipEnd).foldr max 0) := by
    unfold exportDurationA
    rw [max?_eq_of_mem_nonneg ((sortedByStart clips).map clipEnd) (clipEnd a)
      (List.mem_map.mpr ⟨a, hpermA.mem_iff.mpr hamem, rfl⟩) h0]
    exact congrArg some
      (foldr_max_perm ((hpermA.map clipEnd).trans (hpermB.map clipEnd).symm) 0)
  refine ⟨⟨FilterGraph.overlayChain a
      ((sortedTrackStart clips).filter (fun c => decide (c.track = Track.broll))),
    ((sortedTrackStart clips).map clipEnd).foldr max 0, 30⟩, ?_, rfl, rfl, htlA, ?_, ?_⟩
  · unfold handleExportPlan
    rw [if_neg hane, hfBA]
  · intro b hb hbact
    have hcong : clips.filter
        (fun x => decide (closedActive x t) && decide (x.track = Track.broll))
        = clips.filter (fun c => decide (c.track = Track.broll ∧ closedActive c t)) :=
      List.filter_congr (fun x _ => by rw [Bool.decide_and, Bool.and_comm])
    have hffA : ((sortedByStart clips).filter
        (fun c => decide (c.track = Track.broll))).filter
        (fun c => decide (closedActive c t)) = [b] := by
      rw [List.filter_filter, ← List.perm_singleton]
      refine (hpermA.filter _).trans ?_
      rw [hcong, hb]
    have hfindB : ((sortedByStart clips).filter
        (fun c => decide (c.track = Track.broll))).find?
        (fun c => decide (activeAt c t)) = some b :=
      find?_of_filter_eq_singleton (fun c => decide (closedActive c t))
        (fun c => decide (activeAt c t)) _ b
        (fun x _ hq => by
          simp only [decide_eq_true_eq] at hq ⊢
          exact ⟨hq.1, le_of_lt hq.2⟩)
        hffA (decide_eq_true hbact)
    constructor
    · simp only [exportFrameAt, hfindA, hfindB]
    · have hffB : (((sortedTrackStart clips).filter
          (fun c => decide (c.track = Track.broll))).filter
          (fun c => decide (closedActive c t))) = [b] := by
        rw [List.filter_filter, ← List.perm_singleton]
        refine (hpermB.filter _).trans ?_
        rw [hcong, hb]
      simp only [graphSourceAt, hffB, List.getLast?_singleton]
  · intro hnone
    have hfindBn : ((sortedByStart clips).filter
        (fun c => decide (c.track = Track.broll))).find?
        (fun c => decide (activeAt c t)) = none := by
      rw [List.find?_eq_none]
      intro x hx
      have hxf := List.mem_filter.mp hx
      simp only [decide_eq_true_eq]
      intro hact
      exact hnone x (hpermA.mem_iff.mp hxf.1) (of_decide_eq_true hxf.2)
        ⟨hact.1, le_of_lt hact.2⟩
    have hfBn : ((sortedTrackStart clips).filter
        (fun c => decide (c.track = Track.broll))).filter
        (fun c => decide (closedActive c t)) = [] := by
      rw [List.filter_eq_nil_iff]
      intro x hx
      have hxf := List.mem_filter.mp hx
      simp only [decide_eq_true_eq]
      exact hnone x (hpermB.mem_iff.mp hxf.1) (of_decide_eq_true hxf.2)
    constructor
    · simp only [exportFrameAt, hfindA, hfindBn]
    · simp only [graphSourceAt, hfBn, List.getLast?_nil]

/-- Claim C4, witness: the amended statement on the timeline with one
a-roll (source 4, [0, 10)) and one b-roll (source 5, [3, 5)), at time 4:
both strategies show the b-roll source at in-clip offset 1. -/
theorem c4_amended_witness :
    ∃ plan, handleExportPlan [w4a, w4b] = some plan ∧
      exportFrameAt [w4a, w4b] 4 = some (5, 1) ∧
      graphSourceAt plan.graph 4 = some (5, 1) := by
  obtain ⟨plan, hplan, _, _, _, hb, _⟩ := c4_amended [w4a, w4b] w4a 4
    (by norm_num [w4a, w4b, List.filter_cons, List.filter_nil, track_ab, track_ba])
    (by norm_num [clipEnd, w4a])
  have hbb := hb w4b
    (by norm_num [w4a, w4b, closedActive, clipEnd, List.filter_cons,
      List.filter_nil, track_ab, track_ba])
    (by norm_num [activeAt, clipEnd, w4b])
  refine ⟨plan, hplan, ?_, ?_⟩
  · rw [hbb.1]
    norm_num [w4b]
  · rw [hbb.2]
    norm_num [w4b]

end GenVideo
